import Mathlib

/-!
Verification of the graph-accumulation engine of the `graph_rag` repository.

This file gives a shallow embedding of `src/graph_builder.py` (the
`GraphBuilder` class: name normalization, node merge, edge addition,
JSON export and import) and `src/mermaid_renderer.py` (the diagram
renderer), together with theorems settling the specification claims.

Modelling conventions:
- Python strings are Lean `String`; `str.strip()` and `str.lower()` are
  embedded as `pyStrip` and `pyLower` below (`pyLower` covers the ASCII
  range, which is the range exercised by the repository's data).
- Python dicts used as ordered maps (node attributes, the name registry,
  the networkx node and edge stores) are association lists in insertion
  order, matching Python's dict iteration order.
- Extraction records reach `add_chunk_data` as parsed JSON, so entity and
  relationship records are embedded as arbitrary JSON values (`JVal`): a
  key can be absent, hold a string, or hold any other JSON value.
  Python's `dict.get(k, d)` returns the stored value whenever the key is
  present — including `null` or a non-string — and the default only when
  the key is absent; `.get` on a non-dict raises `AttributeError`.
  `_normalize_name` succeeds exactly on string arguments (`.strip()`),
  so a null, numeric, or otherwise non-string name, source or target
  raises `AttributeError`.
- Fallible Python code (attribute errors from `None.strip()` or from
  `.get` on a non-dict) is embedded with an explicit `Option PyErr`
  result; loops that can raise are folds that stop at the first error,
  preserving the state mutated so far, exactly as a propagating Python
  exception would.
-/

namespace GraphRag

/-! ## Python string primitives -/

/-- The characters removed by Python `str.strip()` with no argument
(space, tab, newline, carriage return, vertical tab, form feed). -/
def isPySpace (c : Char) : Bool :=
  c.toNat = 32 || c.toNat = 9 || c.toNat = 10 || c.toNat = 13 || c.toNat = 11 || c.toNat = 12

/-- Python `str.lower()` on a single character, on the ASCII range
(Python's full-Unicode case mapping agrees with this on ASCII, which is
the alphabet of this repository's data). -/
def pyLowerChar (c : Char) : Char :=
  if 65 ≤ c.toNat ∧ c.toNat ≤ 90 then Char.ofNat (c.toNat + 32) else c

/-- Python `str.lower()`. -/
def pyLower (s : String) : String :=
  ⟨s.data.map pyLowerChar⟩

/-- Drop leading Python whitespace from a character list. -/
def lstripL (l : List Char) : List Char :=
  l.dropWhile isPySpace

/-- Drop trailing Python whitespace from a character list. -/
def rstripL (l : List Char) : List Char :=
  (l.reverse.dropWhile isPySpace).reverse

/-- Python `str.strip()`. -/
def pyStrip (s : String) : String :=
  ⟨rstripL (lstripL s.data)⟩

/-! ## Data model (`GraphBuilder.__init__`)

`self.graph` is a networkx `DiGraph`: nodes in insertion order, each with
a `type`, `attributes` and `provenance` payload, and directed edges keyed
by the `(source, target)` pair, each with a `relation` and `provenance`
payload.  `self.name_map` maps a lowercased name to its canonical form,
and `self.provenance` is initialised but never used afterwards. -/

/-- Exceptions the embedded code can raise. -/
inductive PyErr where
  | attributeError
  | typeError
  deriving DecidableEq

/-- A graph node: networkx node key plus its data dict.  `type` is an
`Option` because `load_from_json` can store a JSON `null` type; nodes
created by `add_chunk_data` always carry `some` type. -/
structure Node where
  id : String
  type : Option String
  attributes : List (String × String)
  provenance : List Int
  deriving DecidableEq

/-- A directed edge keyed by `(source, target)`, with its data dict. -/
structure Edge where
  source : String
  target : String
  relation : Option String
  provenance : List Int
  deriving DecidableEq

/-- The `GraphBuilder` state. -/
structure Builder where
  nodes : List Node
  edges : List Edge
  nameMap : List (String × String)
  deriving DecidableEq

def emptyBuilder : Builder :=
  { nodes := [], edges := [], nameMap := [] }

/-- `name in self.graph`. -/
def hasNode (b : Builder) (name : String) : Bool :=
  b.nodes.any (fun n => n.id == name)

/-- `self.graph.nodes[name]` (first, and in well-formed states only,
occurrence of the key). -/
def findNode (b : Builder) (name : String) : Option Node :=
  b.nodes.find? (fun n => n.id == name)

/-- Python `dict.update`: keys already present keep their position and
take the new value; new keys are appended in the update's order. -/
def pyUpdate (old upd : List (String × String)) : List (String × String) :=
  (old.map (fun kv =>
      match upd.lookup kv.1 with
      | some v => (kv.1, v)
      | none => kv))
    ++ upd.filter (fun kv => (old.lookup kv.1).isNone)

/-! ## `GraphBuilder._normalize_name` -/

/-- `_normalize_name`: strip, lowercase, return the canonical form if the
lowercased key is registered, otherwise register the stripped form as
canonical.  Returns the canonical name and the updated state (only the
name map can change). -/
def normalizeName (b : Builder) (name : String) : String × Builder :=
  let nameClean := pyStrip name
  let nameLower := pyLower nameClean
  match b.nameMap.lookup nameLower with
  | some canonical => (canonical, b)
  | none => (nameClean, { b with nameMap := (nameLower, nameClean) :: b.nameMap })

/-! ## JSON values

Both the extraction results fed to `add_chunk_data` and the persisted
graph read by `load_from_json` are parsed JSON; `JVal` is the parsed
tree.  JSON objects are association lists in key order (a parsed JSON
dict has distinct keys). -/

inductive JVal where
  | null
  | bool (b : Bool)
  | num (n : Int)
  | str (s : String)
  | arr (elems : List JVal)
  | obj (fields : List (String × JVal))

/-- Python truthiness of a JSON value. -/
def truthy : JVal → Bool
  | JVal.null => false
  | JVal.bool b => b
  | JVal.num n => n != 0
  | JVal.str s => s != ""
  | JVal.arr elems => !elems.isEmpty
  | JVal.obj fields => !fields.isEmpty

/-- Python `for x in v`: lists yield elements, strings yield one-character
strings, dicts yield their keys, everything else raises `TypeError`. -/
def pyIter : JVal → Except PyErr (List JVal)
  | JVal.arr elems => Except.ok elems
  | JVal.str s => Except.ok (s.data.map (fun c => JVal.str ⟨[c]⟩))
  | JVal.obj fields => Except.ok (fields.map (fun kv => JVal.str kv.1))
  | _ => Except.error PyErr.typeError

/-- `dict.get(k)` on an object's field list (`None`, i.e. `null`, when
the key is absent). -/
def dictGet (fields : List (String × JVal)) (k : String) : JVal :=
  (fields.lookup k).getD JVal.null

/-- `dict.get(k, d)` on an object's field list: the stored value when the
key is present (whatever it is), the default only when absent. -/
def dictGetD (fields : List (String × JVal)) (k : String) (d : JVal) : JVal :=
  (fields.lookup k).getD d

/-- The string carried by a JSON value, if any.  `v.strip()` (inside
`_normalize_name`) succeeds exactly when `decodeOptStr v` is `some`; a
stored `type` or `relation` of `null` is kept as `none` (Python keeps
`None`; a non-string, non-null stored value is outside the repository's
data shapes and also decodes to `none` — storing it cannot raise). -/
def decodeOptStr : JVal → Option String
  | JVal.str s => some s
  | _ => none

/-- The field list of a JSON object, if any; `dict.update(x)` (the
attribute merge) succeeds exactly when `x` is a dict.  (Python's
`dict.update` also accepts an iterable of key-value pairs; array-valued
attributes never occur in the repository's data and are treated as the
raising case, which no theorem below touches.) -/
def asObjFields : JVal → Option (List (String × JVal))
  | JVal.obj fields => some fields
  | _ => none

/-- Decode an attributes object into the stored mapping.  The
repository's data carries string-valued attributes; pairs holding other
values are outside the exercised shapes and are dropped (storing them
cannot raise). -/
def decodeAttrs : JVal → List (String × String)
  | JVal.obj fields => fields.filterMap (fun kv =>
      match kv.2 with
      | JVal.str s => some (kv.1, s)
      | _ => none)
  | _ => []

/-- Decode a provenance array of integers (the only shape the repository
persists). -/
def decodeProv : JVal → List Int
  | JVal.arr elems => elems.filterMap (fun v =>
      match v with
      | JVal.num n => some n
      | _ => none)
  | _ => []

/-! ## Extraction results (`add_chunk_data` input)

`chunk_data` has `entities`, `relationships` and `events` lists of
arbitrary parsed JSON records; each entity is read with
`.get("name", "Unknown")`, `.get("type", "Unknown")`,
`.get("attributes", {})`, each relationship with `.get("source")`,
`.get("target")`, `.get("relation", "related_to")`.  The `events` loop
is `pass`. -/

structure ChunkData where
  entities : List JVal
  relationships : List JVal
  events : List JVal

/-- The entity-record shapes `add_chunk_data` integrates without raising:
a dict whose `name`, when present, is a string (otherwise
`_normalize_name` raises `AttributeError`) and whose `attributes`, when
present, is a dict (otherwise a merging mention raises `TypeError` at
`dict.update`). -/
def entityWF : JVal → Bool
  | JVal.obj fields =>
    (decodeOptStr (dictGetD fields "name" (JVal.str "Unknown"))).isSome &&
    (asObjFields (dictGetD fields "attributes" (JVal.obj []))).isSome
  | _ => false

/-- The relationship-record shapes `add_chunk_data` processes without
raising: a dict whose `source` and `target` are present strings (an
absent key gives `None`, and `_normalize_name` raises on anything that
is not a string). -/
def relWF : JVal → Bool
  | JVal.obj fields =>
    (decodeOptStr (dictGet fields "source")).isSome &&
    (decodeOptStr (dictGet fields "target")).isSome
  | _ => false

/-! ## `GraphBuilder.add_chunk_data` -/

/-- The merge branch of the entity loop: `existing_attrs.update(attributes)`
and append `chunk_id` to `provenance` unless already present.  The node's
`id` and `type` fields are not touched. -/
def mergeNode (b : Builder) (name : String) (attributes : List (String × String))
    (chunkId : Int) : Builder :=
  { b with nodes := b.nodes.map (fun n =>
      if n.id == name then
        { n with
            attributes := pyUpdate n.attributes attributes,
            provenance := if chunkId ∈ n.provenance then n.provenance
                          else n.provenance ++ [chunkId] }
      else n) }

/-- One iteration of the entity loop in `add_chunk_data`.  A non-dict
record raises at `entity.get`; a present non-string name (null, number,
…) raises inside `_normalize_name` before any state changes; a fresh
mention stores the record's type and attributes (decoded, see
`decodeOptStr`/`decodeAttrs`); a merging mention raises `TypeError` at
`existing_attrs.update(attributes)` when the attributes value is not a
dict — after the name-map effect of normalization, with the graph
untouched, exactly as the propagating Python exception leaves things. -/
def processEntity (b : Builder) (entity : JVal) (chunkId : Int) : Builder × Option PyErr :=
  match entity with
  | JVal.obj fields =>
    match decodeOptStr (dictGetD fields "name" (JVal.str "Unknown")) with
    | some nameRaw =>
      let p := normalizeName b nameRaw
      let name := p.1
      let b1 := p.2
      let entityType := decodeOptStr (dictGetD fields "type" (JVal.str "Unknown"))
      let attributesVal := dictGetD fields "attributes" (JVal.obj [])
      if !(hasNode b1 name) then
        ({ b1 with nodes := b1.nodes ++
            [{ id := name, type := entityType, attributes := decodeAttrs attributesVal,
               provenance := [chunkId] }] }, none)
      else
        match asObjFields attributesVal with
        | some _ => (mergeNode b1 name (decodeAttrs attributesVal) chunkId, none)
        | none => (b1, some PyErr.typeError)
    | none => (b, some PyErr.attributeError)
  | _ => (b, some PyErr.attributeError)

/-- networkx `DiGraph.add_edge(u, v, relation=..., provenance=...)`:
endpoints missing from the node store are auto-created with an empty data
dict (modelled with `none` type and empty lists; both calls in the source
are either guarded by node presence or fed from a consistent export, so
this branch is not exercised by the verified paths); an existing
`(u, v)` edge has its `relation` and `provenance` overwritten in place,
otherwise the edge is appended. -/
def addEdgeRaw (b : Builder) (u v : String) (rel : Option String)
    (prov : List Int) : Builder :=
  let b1 := if hasNode b u then b
            else { b with nodes := b.nodes ++ [{ id := u, type := none, attributes := [], provenance := [] }] }
  let b2 := if hasNode b1 v then b1
            else { b1 with nodes := b1.nodes ++ [{ id := v, type := none, attributes := [], provenance := [] }] }
  if b2.edges.any (fun e => e.source == u && e.target == v) then
    { b2 with edges := b2.edges.map (fun e =>
        if e.source == u && e.target == v then
          { e with relation := rel, provenance := prov }
        else e) }
  else
    { b2 with edges := b2.edges ++ [{ source := u, target := v, relation := rel, provenance := prov }] }

/-- One iteration of the relationship loop in `add_chunk_data`.  A
non-dict record raises at `rel.get`; `rel.get("source")` on a record
without a source is `None`, and `_normalize_name` raises `AttributeError`
at `.strip()` on `None`, a number, or any other non-string — same for
the target (the source is normalized first, so its name-map effect
survives a failing target).  The controlled-vocabulary check in the
source is a `pass` in both branches and has no effect.  If either
normalized endpoint is not a present node, the edge is dropped with a
logged warning. -/
def processRel (b : Builder) (chunkId : Int) (rel : JVal) : Builder × Option PyErr :=
  match rel with
  | JVal.obj fields =>
    match decodeOptStr (dictGet fields "source") with
    | some sourceRaw =>
      let p1 := normalizeName b sourceRaw
      match decodeOptStr (dictGet fields "target") with
      | some targetRaw =>
        let p2 := normalizeName p1.2 targetRaw
        let relation := decodeOptStr (dictGetD fields "relation" (JVal.str "related_to"))
        if hasNode p2.2 p1.1 && hasNode p2.2 p2.1 then
          (addEdgeRaw p2.2 p1.1 p2.1 relation [chunkId], none)
        else
          (p2.2, none)
      | none => (p1.2, some PyErr.attributeError)
    | none => (b, some PyErr.attributeError)
  | _ => (b, some PyErr.attributeError)

/-- Run a fallible loop body over a list, stopping at the first raised
exception and keeping the state reached so far (a propagating Python
exception leaves earlier mutations in place). -/
def foldStop {α : Type} (f : Builder → α → Builder × Option PyErr) :
    Builder → List α → Builder × Option PyErr
  | b, [] => (b, none)
  | b, x :: xs =>
    match f b x with
    | (b1, none) => foldStop f b1 xs
    | (b1, some e) => (b1, some e)

/-- `add_chunk_data`: entity loop, then the no-op events loop, then the
relationship loop.  An exception in the entity loop propagates before
the relationship loop runs. -/
def addChunkData (b : Builder) (cd : ChunkData) (chunkId : Int) : Builder × Option PyErr :=
  match foldStop (fun acc e => processEntity acc e chunkId) b cd.entities with
  | (b1, some e) => (b1, some e)
  | (b1, none) => foldStop (fun acc r => processRel acc chunkId r) b1 cd.relationships

/-- A pipeline run: `add_chunk_data` once per chunk, in order, aborting
at the first uncaught exception. -/
def integrateAll (b : Builder) (chunks : List (ChunkData × Int)) : Builder × Option PyErr :=
  foldStop (fun acc p => addChunkData acc p.1 p.2) b chunks

/-! ## `GraphBuilder.export_json` -/

/-- The exported structure: one record per node and per edge, in the
store's iteration (= insertion) order. -/
structure GraphData where
  nodes : List Node
  edges : List Edge
  deriving DecidableEq

def exportJson (b : Builder) : GraphData :=
  { nodes := b.nodes.map (fun n =>
      { id := n.id, type := n.type, attributes := n.attributes, provenance := n.provenance }),
    edges := b.edges.map (fun e =>
      { source := e.source, target := e.target, relation := e.relation, provenance := e.provenance }) }

/-! ## `GraphBuilder.load_from_json`

`load_from_json` reads a file and parses JSON; the parsed value is an
arbitrary JSON tree (`JVal` above).  The serialized form written by
`json.dump(export_json())` is produced by `encodeGraphData`. -/

/-- networkx `add_node` during load: an existing key has its payload
replaced in place, a new key is appended. -/
def addNodePy (b : Builder) (n : Node) : Builder :=
  if hasNode b n.id then
    { b with nodes := b.nodes.map (fun m => if m.id == n.id then n else m) }
  else
    { b with nodes := b.nodes ++ [n] }

/-- One iteration of the node-restore loop: `node_data.get("id")` raises
unless `node_data` is a dict; a falsy id skips the record entirely; a
truthy id adds the node and re-registers the name map entry
(`self.name_map[node_id.lower()] = node_id`; dict assignment is embedded
as a shadowing cons, observationally equal for lookups).  networkx
accepts any hashable node key, but every id this program persists is a
string, so a truthy non-string id is outside the embedded shapes and is
mapped to a type failure (swallowed by the same `except` clause). -/
def restoreOneNode (b : Builder) (nodeData : JVal) : Builder × Option PyErr :=
  match nodeData with
  | JVal.obj fields =>
    let idVal := dictGet fields "id"
    if truthy idVal then
      match idVal with
      | JVal.str nodeId =>
        let b1 := addNodePy b
          { id := nodeId,
            type := decodeOptStr (dictGet fields "type"),
            attributes := decodeAttrs (dictGetD fields "attributes" (JVal.obj [])),
            provenance := decodeProv (dictGetD fields "provenance" (JVal.arr [])) }
        ({ b1 with nameMap := (pyLower nodeId, nodeId) :: b1.nameMap }, none)
      | _ => (b, some PyErr.typeError)
    else
      (b, none)
  | _ => (b, some PyErr.attributeError)

/-- One iteration of the edge-restore loop: both endpoints must be truthy
or the record is skipped; the edge is inserted directly with no endpoint
re-validation (networkx auto-creates missing endpoints).  As for nodes,
a truthy non-string endpoint is outside the embedded shapes. -/
def restoreOneEdge (b : Builder) (edgeData : JVal) : Builder × Option PyErr :=
  match edgeData with
  | JVal.obj fields =>
    let sourceVal := dictGet fields "source"
    let targetVal := dictGet fields "target"
    if truthy sourceVal && truthy targetVal then
      match sourceVal, targetVal with
      | JVal.str source, JVal.str target =>
        (addEdgeRaw b source target
          (decodeOptStr (dictGet fields "relation"))
          (decodeProv (dictGetD fields "provenance" (JVal.arr []))), none)
      | _, _ => (b, some PyErr.typeError)
    else
      (b, none)
  | _ => (b, some PyErr.attributeError)

/-- The body of the `try` block of `load_from_json` after parsing:
`data.get("nodes", [])` raises unless `data` is a dict, then the node
loop runs, then `data.get("edges", [])` and the edge loop. -/
def restoreFromJVal (b : Builder) (data : JVal) : Builder × Option PyErr :=
  match data with
  | JVal.obj fields =>
    match pyIter (dictGetD fields "nodes" (JVal.arr [])) with
    | Except.error e => (b, some e)
    | Except.ok nodeItems =>
      match foldStop restoreOneNode b nodeItems with
      | (b1, some e) => (b1, some e)
      | (b1, none) =>
        match pyIter (dictGetD fields "edges" (JVal.arr [])) with
        | Except.error e => (b1, some e)
        | Except.ok edgeItems => foldStop restoreOneEdge b1 edgeItems
  | _ => (b, some PyErr.attributeError)

/-- What the outside world hands `load_from_json`: no file
(`FileNotFoundError`), an unreadable file (another `OSError`), a readable
file that is not JSON (`json.JSONDecodeError`), or a parsed JSON value. -/
inductive LoadInput where
  | missing
  | unreadable
  | undecodable
  | parsed (v : JVal)

/-- The level of the single log line `load_from_json` emits. -/
inductive LogLevel where
  | info
  | warning
  | error
  deriving DecidableEq

/-- `load_from_json`: a missing file logs a warning, a JSON decode error
logs an error, any exception out of the restore body is caught and logs
an error (keeping the partially restored state), and success logs info.
No exception propagates to the caller. -/
def loadFromJson (b : Builder) : LoadInput → Builder × LogLevel
  | LoadInput.missing => (b, LogLevel.warning)
  | LoadInput.unreadable => (b, LogLevel.error)
  | LoadInput.undecodable => (b, LogLevel.error)
  | LoadInput.parsed v =>
    match restoreFromJVal b v with
    | (b1, none) => (b1, LogLevel.info)
    | (b1, some _) => (b1, LogLevel.error)

/-! ## Serialization of an export (`json.dump(export_json())`) -/

def jsonOfOptStr : Option String → JVal
  | some s => JVal.str s
  | none => JVal.null

def jsonOfAttrs (attrs : List (String × String)) : JVal :=
  JVal.obj (attrs.map (fun kv => (kv.1, JVal.str kv.2)))

def jsonOfProv (l : List Int) : JVal :=
  JVal.arr (l.map (fun i => JVal.num i))

def jsonOfNode (n : Node) : JVal :=
  JVal.obj [("id", JVal.str n.id), ("type", jsonOfOptStr n.type),
    ("attributes", jsonOfAttrs n.attributes), ("provenance", jsonOfProv n.provenance)]

def jsonOfEdge (e : Edge) : JVal :=
  JVal.obj [("source", JVal.str e.source), ("target", JVal.str e.target),
    ("relation", jsonOfOptStr e.relation), ("provenance", jsonOfProv e.provenance)]

def encodeGraphData (gd : GraphData) : JVal :=
  JVal.obj [("nodes", JVal.arr (gd.nodes.map jsonOfNode)),
    ("edges", JVal.arr (gd.edges.map jsonOfEdge))]

/-! ## `MermaidRenderer` (`src/mermaid_renderer.py`)

The renderer consumes the structure produced by `export_json` (that is
how `pipeline.py` invokes it), so its input is `GraphData`. -/

/-- `_sanitize_id`: `.replace(" ", "").replace("-", "").replace("&", "")`;
replacing a single character by the empty string removes every occurrence
of that character. -/
def sanitizeId (text : String) : String :=
  ⟨((text.data.filter (fun c => !(c == ' '))).filter (fun c => !(c == '-'))).filter
    (fun c => !(c == '&'))⟩

/-- The attribute loop of `render`: a key whose lowercase form is
`description` hits the `pass` branch and contributes nothing; every other
attribute is appended as `k=v`. -/
def renderAttrParts (attributes : List (String × String)) : List String :=
  attributes.foldl (fun parts kv =>
    if pyLower kv.1 == "description" then parts
    else parts ++ [kv.1 ++ "=" ++ kv.2]) []

/-- The node line of `render` (`node.get("type", "Entity")` defaults an
absent type). -/
def renderNodeLine (n : Node) : String :=
  let safeId := sanitizeId n.id
  let entityType := n.type.getD "Entity"
  let primaryLabel := entityType ++ ": " ++ n.id
  let attrStr := String.intercalate "; " (renderAttrParts n.attributes)
  let label := if attrStr != "" then
      primaryLabel ++ "<br/><b>Tags/Attributes</b>: " ++ attrStr
    else primaryLabel
  " " ++ safeId ++ "[\"" ++ label ++ "\"]"

/-- The edge line of `render`. -/
def renderEdgeLine (e : Edge) : String :=
  " " ++ sanitizeId e.source ++ " -->|" ++ e.relation.getD "related_to" ++ "| " ++ sanitizeId e.target

/-- The list `lines` built by `render` before joining: header, comment
banner, node lines, a blank line, edge lines. -/
def renderLines (gd : GraphData) : List String :=
  ["graph TD", " %% =========================", " %% Generated Graph",
   " %% ========================="]
    ++ gd.nodes.map renderNodeLine ++ [""] ++ gd.edges.map renderEdgeLine

/-- `render`: `"\n".join(lines)`. -/
def render (gd : GraphData) : String :=
  String.intercalate "\n" (renderLines gd)

/-! ## Invariants -/

/-- The name-registry invariant every state of a run satisfies: a binding
reachable through a stripped-and-lowercased key maps to a canonical form
that is its own stripped form and lowercases back to the key.  It holds
for `emptyBuilder` and is preserved by `normalizeName`'s insertion and by
`load_from_json`'s rebuild insertion (lemmas below). -/
def NameMapWF (m : List (String × String)) : Prop :=
  ∀ k v, m.lookup k = some v → pyLower (pyStrip k) = k →
    pyStrip v = v ∧ pyLower v = k

/-- Every edge's endpoints are present nodes. -/
def edgesClosed (b : Builder) : Prop :=
  ∀ e ∈ b.edges, hasNode b e.source = true ∧ hasNode b e.target = true

/-- Whether a JSON value is an object (a Python dict). -/
def isObj : JVal → Bool
  | JVal.obj _ => true
  | _ => false

/-! # Theorems -/

set_option maxRecDepth 8192

/-! ## Lemmas about the string primitives -/

theorem charOfNat_toNat_small : ∀ n < 123, (Char.ofNat n).toNat = n := by decide

theorem pyLowerChar_idem (c : Char) : pyLowerChar (pyLowerChar c) = pyLowerChar c := by
  by_cases h : 65 ≤ c.toNat ∧ c.toNat ≤ 90
  · have h1 : (Char.ofNat (c.toNat + 32)).toNat = c.toNat + 32 :=
      charOfNat_toNat_small _ (by omega)
    simp only [pyLowerChar, if_pos h]
    rw [if_neg (by rw [h1]; omega)]
  · simp only [pyLowerChar, if_neg h]

theorem isPySpace_pyLowerChar (c : Char) : isPySpace (pyLowerChar c) = isPySpace c := by
  by_cases h : 65 ≤ c.toNat ∧ c.toNat ≤ 90
  · have h1 : (Char.ofNat (c.toNat + 32)).toNat = c.toNat + 32 :=
      charOfNat_toNat_small _ (by omega)
    have hl : isPySpace (pyLowerChar c) = false := by
      simp only [pyLowerChar, if_pos h, isPySpace, h1]
      simp only [Bool.or_eq_false_iff, decide_eq_false_iff_not]
      omega
    have hr : isPySpace c = false := by
      simp only [isPySpace, Bool.or_eq_false_iff, decide_eq_false_iff_not]
      omega
    rw [hl, hr]
  · simp only [pyLowerChar, if_neg h]

theorem pyLower_idem (s : String) : pyLower (pyLower s) = pyLower s := by
  apply String.ext
  show (s.data.map pyLowerChar).map pyLowerChar = s.data.map pyLowerChar
  rw [List.map_map]
  exact List.map_congr_left (fun c _ => pyLowerChar_idem c)

theorem dropWhile_idem (p : Char → Bool) (l : List Char) :
    (l.dropWhile p).dropWhile p = l.dropWhile p := by
  induction l with
  | nil => rfl
  | cons a l ih =>
    by_cases h : p a
    · simp [List.dropWhile_cons, h, ih]
    · simp [List.dropWhile_cons, h]

theorem dropWhile_head_false {p : Char → Bool} :
    ∀ {l : List Char} {a : Char} {t : List Char}, l.dropWhile p = a :: t → p a = false := by
  intro l
  induction l with
  | nil => intro a t h; simp [List.dropWhile] at h
  | cons x xs ih =>
    intro a t h
    by_cases hx : p x
    · rw [List.dropWhile_cons, if_pos hx] at h
      exact ih h
    · rw [List.dropWhile_cons, if_neg hx] at h
      cases h
      simp only [Bool.not_eq_true] at hx
      exact hx

theorem dropWhile_eq_self_of_head {p : Char → Bool} {l : List Char}
    (h : ∀ a t, l = a :: t → p a = false) : l.dropWhile p = l := by
  cases l with
  | nil => rfl
  | cons a t => rw [List.dropWhile_cons, if_neg (by simp [h a t rfl])]

theorem dropWhile_suffix (p : Char → Bool) (l : List Char) : l.dropWhile p <:+ l := by
  induction l with
  | nil => exact List.suffix_rfl
  | cons a l ih =>
    by_cases h : p a
    · rw [List.dropWhile_cons, if_pos h]
      exact ih.trans (List.suffix_cons a l)
    · rw [List.dropWhile_cons, if_neg h]

theorem rstripL_pref (l : List Char) : rstripL l <+: l := by
  have h := List.reverse_prefix.mpr (dropWhile_suffix isPySpace l.reverse)
  rwa [List.reverse_reverse] at h

theorem head_of_pref {l₁ l₂ : List Char} (h : l₁ <+: l₂) (hne : l₁ ≠ []) :
    l₂.head? = l₁.head? := by
  obtain ⟨t, rfl⟩ := h
  cases l₁ with
  | nil => exact absurd rfl hne
  | cons a u => rfl

theorem lstripL_rstripL_lstripL (l : List Char) :
    lstripL (rstripL (lstripL l)) = rstripL (lstripL l) := by
  apply dropWhile_eq_self_of_head
  intro a t h
  have hpref := rstripL_pref (lstripL l)
  rw [h] at hpref
  have hh := head_of_pref hpref (by simp)
  cases hl : lstripL l with
  | nil => rw [hl] at hh; simp at hh
  | cons b u =>
    rw [hl] at hh
    simp only [List.head?_cons, Option.some.injEq] at hh
    exact hh ▸ dropWhile_head_false hl

theorem rstripL_idem (l : List Char) : rstripL (rstripL l) = rstripL l := by
  simp only [rstripL, List.reverse_reverse, dropWhile_idem]

theorem pyStrip_idem (s : String) : pyStrip (pyStrip s) = pyStrip s := by
  apply String.ext
  show rstripL (lstripL (rstripL (lstripL s.data))) = rstripL (lstripL s.data)
  rw [lstripL_rstripL_lstripL, rstripL_idem]

theorem dropWhile_map_pyLowerChar (l : List Char) :
    (l.map pyLowerChar).dropWhile isPySpace = (l.dropWhile isPySpace).map pyLowerChar := by
  induction l with
  | nil => rfl
  | cons a l ih =>
    by_cases h : isPySpace a
    · simp [List.dropWhile_cons, isPySpace_pyLowerChar, h, ih]
    · simp [List.dropWhile_cons, isPySpace_pyLowerChar, h]

theorem pyStrip_pyLower (s : String) : pyStrip (pyLower s) = pyLower (pyStrip s) := by
  apply String.ext
  show rstripL (lstripL (s.data.map pyLowerChar)) = (rstripL (lstripL s.data)).map pyLowerChar
  simp only [lstripL, rstripL]
  rw [dropWhile_map_pyLowerChar, ← List.map_reverse, dropWhile_map_pyLowerChar,
    ← List.map_reverse]

theorem pyStrip_sublist (s : String) : (pyStrip s).data.Sublist s.data := by
  show (rstripL (lstripL s.data)).Sublist s.data
  exact ((rstripL_pref (lstripL s.data)).sublist).trans ((dropWhile_suffix isPySpace s.data).sublist)

/-! ## The name-registry invariant -/

theorem nameMapWF_empty : NameMapWF emptyBuilder.nameMap := by
  intro k v h hk
  simp [emptyBuilder] at h

theorem nameMapWF_insert {m : List (String × String)} (h : NameMapWF m) (x : String) :
    NameMapWF ((pyLower (pyStrip x), pyStrip x) :: m) := by
  intro k v hl hk
  rw [List.lookup_cons] at hl
  cases hbe : (k == pyLower (pyStrip x)) with
  | true =>
    rw [hbe] at hl
    have hk2 : k = pyLower (pyStrip x) := eq_of_beq hbe
    have hv : v = pyStrip x := by
      injection hl with hl2
      exact hl2.symm
    subst hk2
    subst hv
    exact ⟨pyStrip_idem x, rfl⟩
  | false =>
    rw [hbe] at hl
    exact h k v hl hk

theorem nameMapWF_load_insert {m : List (String × String)} (h : NameMapWF m) (nodeId : String) :
    NameMapWF ((pyLower nodeId, nodeId) :: m) := by
  intro k v hl hk
  rw [List.lookup_cons] at hl
  cases hbe : (k == pyLower nodeId) with
  | true =>
    rw [hbe] at hl
    have hk2 : k = pyLower nodeId := eq_of_beq hbe
    have hv : v = nodeId := by
      injection hl with hl2
      exact hl2.symm
    subst hk2
    subst hv
    rw [pyStrip_pyLower, pyLower_idem] at hk
    have hlen : (pyStrip v).data.length = v.data.length := by
      have h2 : (pyLower (pyStrip v)).data.length = (pyLower v).data.length := by rw [hk]
      have h3 : ((pyStrip v).data.map pyLowerChar).length = (v.data.map pyLowerChar).length := h2
      simpa using h3
    have hdata : (pyStrip v).data = v.data := (pyStrip_sublist v).eq_of_length hlen
    exact ⟨String.ext hdata, rfl⟩
  | false =>
    rw [hbe] at hl
    exact h k v hl hk

/-! ## Lemmas about `normalizeName` -/

theorem normalizeName_nodes (b : Builder) (x : String) :
    (normalizeName b x).2.nodes = b.nodes := by
  simp only [normalizeName]
  cases List.lookup (pyLower (pyStrip x)) b.nameMap <;> rfl

theorem normalizeName_edges (b : Builder) (x : String) :
    (normalizeName b x).2.edges = b.edges := by
  simp only [normalizeName]
  cases List.lookup (pyLower (pyStrip x)) b.nameMap <;> rfl

theorem hasNode_eq_of_nodes {b b' : Builder} (h : b'.nodes = b.nodes) (x : String) :
    hasNode b' x = hasNode b x := by
  rw [hasNode, hasNode, h]

/-- C7: for every input string and every state whose name registry
satisfies the invariant kept by the program (`NameMapWF`, established for
the empty state and preserved by both ways entries are ever inserted),
normalizing the result of a normalization returns the same canonical name
and leaves the state unchanged: normalization is idempotent, and an
already-canonical name normalizes to itself. -/
theorem c7_normalize_idem (b : Builder) (x : String) (hwf : NameMapWF b.nameMap) :
    normalizeName (normalizeName b x).2 (normalizeName b x).1 = normalizeName b x := by
  have hkey : pyLower (pyStrip (pyLower (pyStrip x))) = pyLower (pyStrip x) := by
    rw [pyStrip_pyLower, pyStrip_idem, pyLower_idem]
  cases hl : List.lookup (pyLower (pyStrip x)) b.nameMap with
  | some canon =>
    obtain ⟨h1, h2⟩ := hwf _ _ hl hkey
    have hfst : normalizeName b x = (canon, b) := by
      simp only [normalizeName, hl]
    rw [hfst]
    simp only [normalizeName, h1, h2, hl]
  | none =>
    have hfst : normalizeName b x =
        (pyStrip x, { b with nameMap := (pyLower (pyStrip x), pyStrip x) :: b.nameMap }) := by
      simp only [normalizeName, hl]
    rw [hfst]
    simp only [normalizeName, pyStrip_idem]
    rw [List.lookup_cons]
    simp

/-- Witness for C7 at a concrete state and input. -/
theorem c7_witness :
    normalizeName (normalizeName emptyBuilder " Tesla ").2 (normalizeName emptyBuilder " Tesla ").1 =
      normalizeName emptyBuilder " Tesla " :=
  c7_normalize_idem emptyBuilder " Tesla " nameMapWF_empty

/-! ## C2: the Swiggy merge scenario -/

/-- C2: integrating entity Swiggy/Company/(tags=food) for chunk 1 and then
swiggy/Company/(scale=500 cities) for chunk 2 into an empty store exports
exactly one node, id Swiggy, with the union of the two disjoint attribute
sets and provenance [1, 2]. -/
theorem c2_swiggy_merge_scenario :
    exportJson (addChunkData (addChunkData emptyBuilder
        ⟨[JVal.obj [("name", JVal.str "Swiggy"), ("type", JVal.str "Company"),
          ("attributes", JVal.obj [("tags", JVal.str "food")])]], [], []⟩ 1).1
        ⟨[JVal.obj [("name", JVal.str "swiggy"), ("type", JVal.str "Company"),
          ("attributes", JVal.obj [("scale", JVal.str "500 cities")])]], [], []⟩ 2).1 =
      ⟨[⟨"Swiggy", some "Company", [("tags", "food"), ("scale", "500 cities")], [1, 2]⟩], []⟩ := by
  decide

/-! ## C9: the description special case in the renderer -/

/-- C9 counterexample: for a node whose attributes contain the key
`description`, the rendered attribute parts do not include the entry
`description=d`; the special case drops it, so the claim that the entry
appears like any other attribute is false at this input. -/
theorem c9_cex_description_dropped :
    renderAttrParts [("description", "d"), ("role", "r")] = ["role=r"] ∧
    "description=d" ∉ renderAttrParts [("description", "d"), ("role", "r")] := by
  decide

theorem renderAttrParts_foldl (l : List (String × String)) :
    ∀ acc : List String,
      l.foldl (fun parts kv => if pyLower kv.1 == "description" then parts
        else parts ++ [kv.1 ++ "=" ++ kv.2]) acc =
      acc ++ (l.filter (fun kv => !(pyLower kv.1 == "description"))).map
        (fun kv => kv.1 ++ "=" ++ kv.2) := by
  induction l with
  | nil => intro acc; simp
  | cons kv l ih =>
    intro acc
    rw [List.foldl_cons, List.filter_cons]
    by_cases h : pyLower kv.1 = "description"
    · rw [if_pos (by simp [h]), if_neg (by simp [h])]
      exact ih acc
    · rw [if_neg (by simp [h]), if_pos (by simp [h]), ih (acc ++ [kv.1 ++ "=" ++ kv.2])]
      simp

/-- C9 amended: an attribute whose key lowercases to `description` is
omitted from the Tags/Attributes parts (the special case is an exclusion,
not inert); every other attribute appears as `k=v` in iteration order. -/
theorem c9_description_omitted (attributes : List (String × String)) :
    renderAttrParts attributes =
      (attributes.filter (fun kv => !(pyLower kv.1 == "description"))).map
        (fun kv => kv.1 ++ "=" ++ kv.2) := by
  rw [renderAttrParts, renderAttrParts_foldl]
  simp

/-! ## C5: integration on arbitrary record shapes -/

theorem processRel_ok (b : Builder) (chunkId : Int) (rel : JVal)
    (h : relWF rel = true) : (processRel b chunkId rel).2 = none := by
  cases rel with
  | obj fields =>
    simp only [relWF] at h
    obtain ⟨h1, h2⟩ := Bool.and_eq_true_iff.mp h
    cases hsrc : decodeOptStr (dictGet fields "source") with
    | none => rw [hsrc] at h1; simp at h1
    | some a =>
      cases htgt : decodeOptStr (dictGet fields "target") with
      | none => rw [htgt] at h2; simp at h2
      | some c =>
        simp only [processRel, hsrc, htgt]
        split <;> rfl
  | null => simp [relWF] at h
  | bool v => simp [relWF] at h
  | num v => simp [relWF] at h
  | str s => simp [relWF] at h
  | arr v => simp [relWF] at h

theorem processEntity_ok (b : Builder) (entity : JVal) (chunkId : Int)
    (h : entityWF entity = true) : (processEntity b entity chunkId).2 = none := by
  cases entity with
  | obj fields =>
    simp only [entityWF] at h
    obtain ⟨h1, h2⟩ := Bool.and_eq_true_iff.mp h
    cases hname : decodeOptStr (dictGetD fields "name" (JVal.str "Unknown")) with
    | none => rw [hname] at h1; simp at h1
    | some nameRaw =>
      simp only [processEntity, hname]
      split
      · rfl
      · cases hav : asObjFields (dictGetD fields "attributes" (JVal.obj [])) with
        | none => rw [hav] at h2; simp at h2
        | some kvs => simp [hav]
  | null => simp [entityWF] at h
  | bool v => simp [entityWF] at h
  | num v => simp [entityWF] at h
  | str s => simp [entityWF] at h
  | arr v => simp [entityWF] at h

theorem foldStop_ok {α : Type} (f : Builder → α → Builder × Option PyErr) :
    ∀ l : List α, (∀ b a, a ∈ l → (f b a).2 = none) → ∀ b, (foldStop f b l).2 = none := by
  intro l
  induction l with
  | nil => intro _ b; rfl
  | cons x xs ih =>
    intro hall b
    simp only [foldStop]
    rcases hf : f b x with ⟨b1, e⟩
    have he : e = none := by
      have h2 := hall b x (by simp)
      rw [hf] at h2
      exact h2
    subst he
    exact ih (fun b' a ha => hall b' a (by simp [ha])) b1

/-- C5 counterexample: `add_chunk_data` raises on each of these record
shapes, so integration of an arbitrarily shaped extraction result can
raise — a relationship with a missing source, a relationship whose
source is the number 42, an entity whose present name is null, an entity
whose present name is the number 42, a non-dict entity record, and a
merging entity mention whose attributes value is the number 7
(`dict.update` raises `TypeError`). -/
theorem c5_cex_malformed_records_raise :
    (addChunkData emptyBuilder ⟨[], [JVal.obj [("target", JVal.str "B")]], []⟩ 1).2 =
      some PyErr.attributeError ∧
    (addChunkData emptyBuilder ⟨[],
      [JVal.obj [("source", JVal.num 42), ("target", JVal.str "B")]], []⟩ 2).2 =
      some PyErr.attributeError ∧
    (addChunkData emptyBuilder ⟨[JVal.obj [("name", JVal.null)]], [], []⟩ 3).2 =
      some PyErr.attributeError ∧
    (addChunkData emptyBuilder ⟨[JVal.obj [("name", JVal.num 42)]], [], []⟩ 4).2 =
      some PyErr.attributeError ∧
    (addChunkData emptyBuilder ⟨[JVal.str "junk"], [], []⟩ 5).2 =
      some PyErr.attributeError ∧
    (addChunkData emptyBuilder ⟨[JVal.obj [("name", JVal.str "A")],
      JVal.obj [("name", JVal.str "A"), ("attributes", JVal.num 7)]], [], []⟩ 6).2 =
      some PyErr.typeError := by
  decide

/-- C5 amended: integration raises no exception provided every entity
record is a dict whose name, when present, is a string and whose
attributes, when present, is a dict, and every relationship record is a
dict whose source and target are present strings (`entityWF`/`relWF`).
Outside those shapes `add_chunk_data` raises: `AttributeError` for a
non-dict record, a null or non-string entity name, or a missing, null or
non-string relationship source or target, and `TypeError` for a non-dict
attributes value on a merging mention. -/
theorem c5_no_exception_wellformed (b : Builder) (cd : ChunkData) (chunkId : Int)
    (he : ∀ e ∈ cd.entities, entityWF e = true)
    (hr : ∀ r ∈ cd.relationships, relWF r = true) :
    (addChunkData b cd chunkId).2 = none := by
  simp only [addChunkData]
  have hent : (foldStop (fun acc e => processEntity acc e chunkId) b cd.entities).2 = none :=
    foldStop_ok _ cd.entities (fun b' e hmem => processEntity_ok b' e chunkId (he e hmem)) b
  rcases hfe : foldStop (fun acc e => processEntity acc e chunkId) b cd.entities with ⟨b1, err⟩
  rw [hfe] at hent
  have herr : err = none := hent
  subst herr
  exact foldStop_ok _ cd.relationships
    (fun b' r hmem => processRel_ok b' chunkId r (hr r hmem)) b1

/-- Witness for C5 at a concrete well-formed chunk. -/
theorem c5_witness :
    (addChunkData emptyBuilder
      ⟨[JVal.obj [("name", JVal.str "A")]],
       [JVal.obj [("source", JVal.str "A"), ("target", JVal.str "A")]], []⟩ 3).2 = none :=
  c5_no_exception_wellformed emptyBuilder
    ⟨[JVal.obj [("name", JVal.str "A")]],
     [JVal.obj [("source", JVal.str "A"), ("target", JVal.str "A")]], []⟩ 3
    (by decide) (by decide)

/-! ## C6: load failure modes -/

/-- C6 counterexample: the structurally invalid persisted input
`{"nodes": [{"id": "A"}, "junk"]}` is loaded into a store that contains
node A (the records before the failing one are kept), with an error
logged — not into an empty store as claimed. -/
theorem c6_cex_partial_load :
    (loadFromJson emptyBuilder (LoadInput.parsed (JVal.obj [("nodes",
        JVal.arr [JVal.obj [("id", JVal.str "A")], JVal.str "junk"])]))).1.nodes =
      [{ id := "A", type := none, attributes := [], provenance := [] }] ∧
    (loadFromJson emptyBuilder (LoadInput.parsed (JVal.obj [("nodes",
        JVal.arr [JVal.obj [("id", JVal.str "A")], JVal.str "junk"])]))).2 = LogLevel.error := by
  decide

/-- C6 amended: a missing source yields an empty store plus a warning; an
undecodable source yields an empty store plus an error; a parsed source
that is not an object yields an empty store plus an error.  (A parsed
object with invalid contents logs an error without raising, but keeps the
nodes and edges restored before the failure — see the counterexample.) -/
theorem c6_load_failure_modes :
    loadFromJson emptyBuilder LoadInput.missing = (emptyBuilder, LogLevel.warning) ∧
    loadFromJson emptyBuilder LoadInput.undecodable = (emptyBuilder, LogLevel.error) ∧
    ∀ v : JVal, isObj v = false →
      loadFromJson emptyBuilder (LoadInput.parsed v) = (emptyBuilder, LogLevel.error) := by
  refine ⟨rfl, rfl, ?_⟩
  intro v hv
  cases v with
  | null => rfl
  | bool b => rfl
  | num n => rfl
  | str s => rfl
  | arr elems => rfl
  | obj fields => simp [isObj] at hv

/-- Witness for C6 at a concrete non-object input. -/
theorem c6_witness :
    loadFromJson emptyBuilder (LoadInput.parsed (JVal.num 3)) = (emptyBuilder, LogLevel.error) :=
  c6_load_failure_modes.2.2 (JVal.num 3) rfl

/-! ## C8: the render scenario and the edge line format -/

/-- C8: rendering the one-node graph with id "Swiggy One", type Product
and attribute role=loyalty produces the sanitized identifier SwiggyOne
with the expected label, and every edge of any graph is emitted as the
line `<sanitized-source> -->|<relation>| <sanitized-target>`. -/
theorem c8_render_scenario :
    render ⟨[⟨"Swiggy One", some "Product", [("role", "loyalty")], []⟩], []⟩ =
      "graph TD\n %% =========================\n %% Generated Graph\n %% =========================\n SwiggyOne[\"Product: Swiggy One<br/><b>Tags/Attributes</b>: role=loyalty\"]\n" ∧
    ∀ (gd : GraphData) (e : Edge), e ∈ gd.edges →
      (" " ++ sanitizeId e.source ++ " -->|" ++ e.relation.getD "related_to" ++ "| " ++
        sanitizeId e.target) ∈ renderLines gd := by
  constructor
  · decide
  · intro gd e he
    have h1 : (" " ++ sanitizeId e.source ++ " -->|" ++ e.relation.getD "related_to" ++ "| " ++
        sanitizeId e.target) = renderEdgeLine e := rfl
    rw [h1, renderLines]
    simp only [List.mem_append]
    exact Or.inr (List.mem_map_of_mem _ he)

/-- Witness for C8's edge-line clause at a concrete graph and edge. -/
theorem c8_witness :
    (" " ++ sanitizeId "Swiggy One" ++ " -->|" ++ (some "offers").getD "related_to" ++ "| " ++
      sanitizeId "Instamart") ∈
      renderLines ⟨[], [⟨"Swiggy One", "Instamart", some "offers", []⟩]⟩ :=
  c8_render_scenario.2 ⟨[], [⟨"Swiggy One", "Instamart", some "offers", []⟩]⟩
    ⟨"Swiggy One", "Instamart", some "offers", []⟩ (by decide)

/-! ## C1: dangling edges are dropped and never exported -/

theorem any_id_map (g : Node → Node) (hg : ∀ n, (g n).id = n.id) (l : List Node) (x : String) :
    (l.map g).any (fun n => n.id == x) = l.any (fun n => n.id == x) := by
  induction l with
  | nil => rfl
  | cons a l ih => simp [List.any_cons, hg, ih]

theorem hasNode_mergeNode (b : Builder) (name : String) (attrs : List (String × String))
    (chunkId : Int) (x : String) :
    hasNode (mergeNode b name attrs chunkId) x = hasNode b x := by
  simp only [mergeNode, hasNode]
  exact any_id_map _ (fun n => by split <;> rfl) b.nodes x

theorem processEntity_edges (b : Builder) (entity : JVal) (chunkId : Int) :
    (processEntity b entity chunkId).1.edges = b.edges := by
  cases entity with
  | obj fields =>
    cases hname : decodeOptStr (dictGetD fields "name" (JVal.str "Unknown")) with
    | none => simp [processEntity, hname]
    | some nameRaw =>
      simp only [processEntity, hname]
      split
      · simp [normalizeName_edges]
      · cases hav : asObjFields (dictGetD fields "attributes" (JVal.obj [])) with
        | none => simp [hav, normalizeName_edges]
        | some kvs => simp [hav, mergeNode, normalizeName_edges]
  | null => rfl
  | bool v => rfl
  | num v => rfl
  | str s => rfl
  | arr v => rfl

theorem hasNode_extend (b : Builder) (ns : List Node) (x : String) (h : hasNode b x = true) :
    hasNode { b with nodes := b.nodes ++ ns } x = true := by
  simp only [hasNode] at h
  simp [hasNode, List.any_append, h]

theorem processEntity_hasNode_mono (b : Builder) (entity : JVal) (chunkId : Int) (x : String)
    (h : hasNode b x = true) : hasNode (processEntity b entity chunkId).1 x = true := by
  cases entity with
  | obj fields =>
    cases hname : decodeOptStr (dictGetD fields "name" (JVal.str "Unknown")) with
    | none => simpa [processEntity, hname] using h
    | some nameRaw =>
      simp only [processEntity, hname]
      split
      · have hb : (normalizeName b nameRaw).2.nodes.any (fun n => n.id == x) = true := by
          rw [normalizeName_nodes]
          exact h
        simp [hasNode, List.any_append, hb]
      · cases hav : asObjFields (dictGetD fields "attributes" (JVal.obj [])) with
        | none =>
          simp only [hav]
          rw [hasNode_eq_of_nodes (normalizeName_nodes b nameRaw) x]
          exact h
        | some kvs =>
          simp only [hav]
          rw [hasNode_mergeNode, hasNode_eq_of_nodes (normalizeName_nodes b nameRaw) x]
          exact h
  | null => exact h
  | bool v => exact h
  | num v => exact h
  | str s => exact h
  | arr v => exact h

theorem processEntity_closed (b : Builder) (entity : JVal) (chunkId : Int)
    (h : edgesClosed b) : edgesClosed (processEntity b entity chunkId).1 := by
  intro ed hed
  rw [processEntity_edges] at hed
  obtain ⟨h1, h2⟩ := h ed hed
  exact ⟨processEntity_hasNode_mono _ _ _ _ h1, processEntity_hasNode_mono _ _ _ _ h2⟩

theorem hasNode_autoAdd (b : Builder) (w x : String) (h : hasNode b x = true) :
    hasNode (if hasNode b w then b
      else { b with nodes := b.nodes ++ [{ id := w, type := none, attributes := [], provenance := [] }] }) x = true := by
  split
  · exact h
  · exact hasNode_extend b _ x h

theorem addEdgeRaw_hasNode_mono (b : Builder) (u v : String) (rel : Option String)
    (prov : List Int) (x : String) (h : hasNode b x = true) :
    hasNode (addEdgeRaw b u v rel prov) x = true := by
  simp only [addEdgeRaw]
  by_cases h1 : hasNode b u = true
  · rw [if_pos h1]
    by_cases h2 : hasNode b v = true
    · rw [if_pos h2]
      split <;> exact h
    · rw [if_neg h2]
      split <;> exact hasNode_extend b _ x h
  · rw [if_neg h1]
    by_cases h2 : hasNode { b with
        nodes := b.nodes ++ [{ id := u, type := none, attributes := [], provenance := [] }] } v = true
    · rw [if_pos h2]
      split <;> exact hasNode_extend b _ x h
    · rw [if_neg h2]
      split <;>
        exact hasNode_extend { b with
            nodes := b.nodes ++ [{ id := u, type := none, attributes := [], provenance := [] }] }
          _ x (hasNode_extend b _ x h)

theorem edgesClosed_congr {b b' : Builder} (hn : b'.nodes = b.nodes) (he : b'.edges = b.edges)
    (h : edgesClosed b) : edgesClosed b' := by
  intro ed hed
  rw [he] at hed
  obtain ⟨h1, h2⟩ := h ed hed
  rw [hasNode_eq_of_nodes hn ed.source, hasNode_eq_of_nodes hn ed.target]
  exact ⟨h1, h2⟩

theorem addEdgeRaw_closed (b : Builder) (u v : String) (rel : Option String) (prov : List Int)
    (hu : hasNode b u = true) (hv : hasNode b v = true) (h : edgesClosed b) :
    edgesClosed (addEdgeRaw b u v rel prov) := by
  intro ed hed
  simp only [addEdgeRaw, hu, hv, if_true] at hed ⊢
  by_cases hc : b.edges.any (fun e => e.source == u && e.target == v) = true
  · rw [if_pos hc] at hed ⊢
    obtain ⟨e0, he0, rfl⟩ := List.mem_map.mp hed
    have hs : ((fun e => if e.source == u && e.target == v
        then { e with relation := rel, provenance := prov } else e) e0).source = e0.source := by
      dsimp only
      split <;> rfl
    have ht : ((fun e => if e.source == u && e.target == v
        then { e with relation := rel, provenance := prov } else e) e0).target = e0.target := by
      dsimp only
      split <;> rfl
    obtain ⟨h1, h2⟩ := h e0 he0
    rw [hs, ht]
    exact ⟨h1, h2⟩
  · rw [if_neg hc] at hed ⊢
    rcases List.mem_append.mp hed with hin | hnew
    · exact h ed hin
    · have : ed = { source := u, target := v, relation := rel, provenance := prov } := by
        simpa using hnew
      subst this
      exact ⟨hu, hv⟩

theorem processRel_closed (b : Builder) (chunkId : Int) (rel : JVal) (h : edgesClosed b) :
    edgesClosed (processRel b chunkId rel).1 := by
  cases rel with
  | null => exact h
  | bool v => exact h
  | num v => exact h
  | str s => exact h
  | arr v => exact h
  | obj fields =>
    cases hs : decodeOptStr (dictGet fields "source") with
    | none => simpa [processRel, hs] using h
    | some a =>
      cases ht : decodeOptStr (dictGet fields "target") with
      | none =>
        simp only [processRel, hs, ht]
        exact edgesClosed_congr (normalizeName_nodes b a) (normalizeName_edges b a) h
      | some c =>
        simp only [processRel, hs, ht]
        have hn2 : (normalizeName (normalizeName b a).2 c).2.nodes = b.nodes := by
          rw [normalizeName_nodes, normalizeName_nodes]
        have he2 : (normalizeName (normalizeName b a).2 c).2.edges = b.edges := by
          rw [normalizeName_edges, normalizeName_edges]
        have hcl2 : edgesClosed (normalizeName (normalizeName b a).2 c).2 :=
          edgesClosed_congr hn2 he2 h
        split
        · next hguard =>
          obtain ⟨hu, hv⟩ := Bool.and_eq_true_iff.mp hguard
          exact addEdgeRaw_closed _ _ _ _ _ hu hv hcl2
        · exact hcl2

theorem foldStop_pres {α : Type} (f : Builder → α → Builder × Option PyErr)
    (P : Builder → Prop) (hf : ∀ b a, P b → P (f b a).1) :
    ∀ (l : List α) (b : Builder), P b → P (foldStop f b l).1 := by
  intro l
  induction l with
  | nil => intro b h; exact h
  | cons x xs ih =>
    intro b h
    simp only [foldStop]
    rcases hfx : f b x with ⟨b1, e⟩
    have hb1 : P b1 := by
      have h2 := hf b x h
      rw [hfx] at h2
      exact h2
    cases e with
    | none => exact ih b1 hb1
    | some err => exact hb1

theorem addChunkData_closed (b : Builder) (cd : ChunkData) (chunkId : Int)
    (h : edgesClosed b) : edgesClosed (addChunkData b cd chunkId).1 := by
  simp only [addChunkData]
  rcases hfe : foldStop (fun acc e => processEntity acc e chunkId) b cd.entities with ⟨b1, err⟩
  have hb1 : edgesClosed b1 := by
    have h2 := foldStop_pres (fun acc e => processEntity acc e chunkId) edgesClosed
      (fun b' e h' => processEntity_closed b' e chunkId h') cd.entities b h
    rw [hfe] at h2
    exact h2
  cases err with
  | some e => exact hb1
  | none =>
    exact foldStop_pres _ edgesClosed (fun b' r h' => processRel_closed b' chunkId r h')
      cd.relationships b1 hb1

theorem edgesClosed_empty : edgesClosed emptyBuilder := by
  intro ed hed
  simp [emptyBuilder] at hed

theorem integrateAll_closed (chunks : List (ChunkData × Int)) :
    edgesClosed (integrateAll emptyBuilder chunks).1 := by
  simp only [integrateAll]
  exact foldStop_pres _ edgesClosed (fun b p h => addChunkData_closed b p.1 p.2 h)
    chunks emptyBuilder edgesClosed_empty

theorem exportJson_nodes (b : Builder) : (exportJson b).nodes = b.nodes := by
  simp only [exportJson]
  exact List.map_id' b.nodes

theorem exportJson_edges (b : Builder) : (exportJson b).edges = b.edges := by
  simp only [exportJson]
  exact List.map_id' b.edges

/-- C1: a relationship whose normalized source or normalized target is not
a present node at the moment the edge would be added leaves the node and
edge stores untouched (and raises nothing) — the edge is only dropped,
never queued; and after any run of integrations from the empty store,
every edge in the export has both endpoints among the present nodes. -/
theorem c1_dangling_edge_dropped :
    (∀ (b : Builder) (chunkId : Int) (fields : List (String × JVal)) (a c : String),
      dictGet fields "source" = JVal.str a → dictGet fields "target" = JVal.str c →
      (hasNode b (normalizeName b a).1 = false ∨
        hasNode b (normalizeName (normalizeName b a).2 c).1 = false) →
      (processRel b chunkId (JVal.obj fields)).1.nodes = b.nodes ∧
      (processRel b chunkId (JVal.obj fields)).1.edges = b.edges ∧
      (processRel b chunkId (JVal.obj fields)).2 = none) ∧
    ∀ chunks : List (ChunkData × Int),
      ∀ e ∈ (exportJson (integrateAll emptyBuilder chunks).1).edges,
        hasNode (integrateAll emptyBuilder chunks).1 e.source = true ∧
        hasNode (integrateAll emptyBuilder chunks).1 e.target = true := by
  constructor
  · intro b chunkId fields a c hs ht hdrop
    simp only [processRel, hs, ht, decodeOptStr]
    have hnb : (normalizeName (normalizeName b a).2 c).2.nodes = b.nodes := by
      rw [normalizeName_nodes, normalizeName_nodes]
    have heb : (normalizeName (normalizeName b a).2 c).2.edges = b.edges := by
      rw [normalizeName_edges, normalizeName_edges]
    have hguard : (hasNode (normalizeName (normalizeName b a).2 c).2 (normalizeName b a).1 &&
        hasNode (normalizeName (normalizeName b a).2 c).2
          (normalizeName (normalizeName b a).2 c).1) = false := by
      rcases hdrop with hcase | hcase
      · rw [hasNode_eq_of_nodes hnb ((normalizeName b a).1), hcase, Bool.false_and]
      · rw [hasNode_eq_of_nodes hnb ((normalizeName (normalizeName b a).2 c).1), hcase,
          Bool.and_false]
    rw [if_neg (by rw [hguard]; simp)]
    exact ⟨hnb, heb, rfl⟩
  · intro chunks e he
    rw [exportJson_edges] at he
    exact integrateAll_closed chunks e he

/-- Witness for C1: a concrete dropped edge (target Instamart absent)
changes nothing, and a concrete run's exported edge has present
endpoints. -/
theorem c1_witness :
    ((processRel emptyBuilder 1 (JVal.obj [("source", JVal.str "A"), ("target", JVal.str "B"),
      ("relation", JVal.str "offers")])).1.edges = emptyBuilder.edges) ∧
    hasNode (integrateAll emptyBuilder
      [(⟨[JVal.obj [("name", JVal.str "Swiggy"), ("type", JVal.str "Company")],
          JVal.obj [("name", JVal.str "Instamart"), ("type", JVal.str "Service")]],
         [JVal.obj [("source", JVal.str "Swiggy"), ("target", JVal.str "Instamart"),
          ("relation", JVal.str "offers")]], []⟩, 1)]).1 "Swiggy" = true :=
  ⟨(c1_dangling_edge_dropped.1 emptyBuilder 1
      [("source", JVal.str "A"), ("target", JVal.str "B"), ("relation", JVal.str "offers")]
      "A" "B" rfl rfl (Or.inl (by decide))).2.1,
    (c1_dangling_edge_dropped.2
      [(⟨[JVal.obj [("name", JVal.str "Swiggy"), ("type", JVal.str "Company")],
          JVal.obj [("name", JVal.str "Instamart"), ("type", JVal.str "Service")]],
         [JVal.obj [("source", JVal.str "Swiggy"), ("target", JVal.str "Instamart"),
          ("relation", JVal.str "offers")]], []⟩, 1)]
      ⟨"Swiggy", "Instamart", some "offers", [1]⟩ (by decide)).1⟩

/-! ## C4: edges are keyed by (source, target) and overwritten -/

theorem countP_zero_map_filter (u v : String) (rel : Option String) (prov : List Int)
    (l : List Edge) (h : l.countP (fun e => e.source == u && e.target == v) = 0) :
    (l.map (fun e => if e.source == u && e.target == v
        then { e with relation := rel, provenance := prov } else e)).filter
      (fun e => e.source == u && e.target == v) = [] := by
  have hall := List.countP_eq_zero.mp h
  refine List.filter_eq_nil_iff.mpr ?_
  intro e' he'
  obtain ⟨e0, he0, rfl⟩ := List.mem_map.mp he'
  have h0 := hall e0 he0
  rw [if_neg h0]
  exact h0

theorem filter_map_overwrite (u v : String) (rel : Option String) (prov : List Int) :
    ∀ l : List Edge, l.countP (fun e => e.source == u && e.target == v) = 1 →
      (l.map (fun e => if e.source == u && e.target == v
          then { e with relation := rel, provenance := prov } else e)).filter
        (fun e => e.source == u && e.target == v) =
      [{ source := u, target := v, relation := rel, provenance := prov }] := by
  intro l
  induction l with
  | nil => intro h; simp at h
  | cons e t ih =>
    intro h
    rw [List.countP_cons] at h
    by_cases hk : (e.source == u && e.target == v) = true
    · rw [if_pos hk] at h
      have ht0 : t.countP (fun e => e.source == u && e.target == v) = 0 := by omega
      rw [List.map_cons, if_pos hk, List.filter_cons, if_pos hk,
        countP_zero_map_filter u v rel prov t ht0]
      obtain ⟨h1, h2⟩ := Bool.and_eq_true_iff.mp hk
      have hsu : e.source = u := eq_of_beq h1
      have htv : e.target = v := eq_of_beq h2
      rw [show ({ e with relation := rel, provenance := prov } : Edge) =
        { source := u, target := v, relation := rel, provenance := prov } from by
          rw [← hsu, ← htv]]
    · rw [if_neg hk] at h
      have ht1 : t.countP (fun e => e.source == u && e.target == v) = 1 := by omega
      rw [List.map_cons, if_neg hk, List.filter_cons, if_neg hk]
      exact ih ht1

/-- C4: adding an edge for a pair of existing nodes that already carries
an edge overwrites the stored edge's relation and provenance in place
(relation is not part of the key), and the export then contains exactly
one edge for that pair, with the last-written relation and provenance. -/
theorem c4_edge_overwrite (b : Builder) (u v : String) (rel : Option String) (prov : List Int)
    (hu : hasNode b u = true) (hv : hasNode b v = true)
    (hone : b.edges.countP (fun e => e.source == u && e.target == v) = 1) :
    (exportJson (addEdgeRaw b u v rel prov)).edges.filter
        (fun e => e.source == u && e.target == v) =
      [{ source := u, target := v, relation := rel, provenance := prov }] := by
  rw [exportJson_edges]
  simp only [addEdgeRaw]
  rw [if_pos hu, if_pos hv]
  have hany : b.edges.any (fun e => e.source == u && e.target == v) = true := by
    rw [List.any_eq_true]
    exact List.countP_pos_iff.mp (by omega)
  rw [if_pos hany]
  exact filter_map_overwrite u v rel prov b.edges hone

/-- Witness for C4 at a concrete store, existing pair and second call. -/
theorem c4_witness :
    (exportJson (addEdgeRaw ⟨[⟨"A", some "T", [], [1]⟩, ⟨"B", some "T", [], [1]⟩],
        [⟨"A", "B", some "offers", [1]⟩], [("a", "A"), ("b", "B")]⟩
        "A" "B" (some "operates") [2])).edges.filter
        (fun e => e.source == "A" && e.target == "B") =
      [⟨"A", "B", some "operates", [2]⟩] :=
  c4_edge_overwrite ⟨[⟨"A", some "T", [], [1]⟩, ⟨"B", some "T", [], [1]⟩],
      [⟨"A", "B", some "offers", [1]⟩], [("a", "A"), ("b", "B")]⟩
    "A" "B" (some "operates") [2] (by decide) (by decide) (by decide)

/-! ## C10: merging never touches a node's id or type -/

theorem find_map_update (name : String) (g : Node → Node) (hg : ∀ n, (g n).id = n.id) :
    ∀ (l : List Node) (n : Node), l.find? (fun m => m.id == name) = some n →
      (l.map (fun m => if m.id == name then g m else m)).find? (fun m => m.id == name) =
        some (g n) := by
  intro l
  induction l with
  | nil => intro n h; simp at h
  | cons a t ih =>
    intro n h
    by_cases ha : (a.id == name) = true
    · rw [List.find?_cons_of_pos t ha] at h
      injection h with h2
      subst h2
      rw [List.map_cons, if_pos ha]
      have hga : ((g a).id == name) = true := by rw [hg a]; exact ha
      rw [List.find?_cons_of_pos (p := fun (m : Node) => m.id == name) _ hga]
    · rw [List.find?_cons_of_neg t ha] at h
      rw [List.map_cons, if_neg ha]
      rw [List.find?_cons_of_neg (p := fun (m : Node) => m.id == name) _ ha]
      exact ih n h

theorem findNode_hasNode {b : Builder} {x : String} {n : Node}
    (h : findNode b x = some n) : hasNode b x = true := by
  rw [hasNode, List.any_eq_true]
  have h2 : List.find? (fun m => m.id == x) b.nodes = some n := h
  have h3 := List.find?_some h2
  exact ⟨n, List.mem_of_find?_eq_some h2, h3⟩

/-- C10: when an entity record (a dict whose name is the string
`nameRaw`, whose type field is completely arbitrary, and whose attributes
field is a dict so the merge succeeds) resolves to the normalized name of
a node already in the store, the merge leaves that node's id and type
exactly as stored — whatever the record's type field carries — changing
only the attributes mapping and the provenance list. -/
theorem c10_merge_preserves_type_id (b : Builder) (fields : List (String × JVal))
    (chunkId : Int) (n : Node) (nameRaw : String)
    (hname : dictGetD fields "name" (JVal.str "Unknown") = JVal.str nameRaw)
    (hattrs : (asObjFields (dictGetD fields "attributes" (JVal.obj []))).isSome = true)
    (h : findNode b (normalizeName b nameRaw).1 = some n) :
    findNode (processEntity b (JVal.obj fields) chunkId).1 (normalizeName b nameRaw).1 =
      some { id := n.id, type := n.type,
             attributes := pyUpdate n.attributes
               (decodeAttrs (dictGetD fields "attributes" (JVal.obj []))),
             provenance := if chunkId ∈ n.provenance then n.provenance
                           else n.provenance ++ [chunkId] } := by
  have hhn : hasNode (normalizeName b nameRaw).2 (normalizeName b nameRaw).1 = true := by
    rw [hasNode_eq_of_nodes (normalizeName_nodes b _)]
    exact findNode_hasNode h
  simp only [processEntity, hname, decodeOptStr, hhn, Bool.not_true, Bool.false_eq_true,
    if_false]
  cases hav : asObjFields (dictGetD fields "attributes" (JVal.obj [])) with
  | none => rw [hav] at hattrs; simp at hattrs
  | some kvs =>
    simp only [hav]
    simp only [mergeNode, findNode, normalizeName_nodes]
    exact find_map_update _ _ (fun m => by split <;> rfl) b.nodes n h

/-- Witness for C10: merging a record whose type field carries a
different value (Zebra) into an existing node keeps id A and type T,
merging only attributes and provenance. -/
theorem c10_witness :
    findNode (processEntity ⟨[⟨"A", some "T", [("k", "v")], [1]⟩], [], [("a", "A")]⟩
        (JVal.obj [("name", JVal.str "A"), ("type", JVal.str "Zebra"),
          ("attributes", JVal.obj [("k2", JVal.str "v2")])]) 2).1 "A" =
      some ⟨"A", some "T", [("k", "v"), ("k2", "v2")], [1, 2]⟩ :=
  c10_merge_preserves_type_id ⟨[⟨"A", some "T", [("k", "v")], [1]⟩], [], [("a", "A")]⟩
    [("name", JVal.str "A"), ("type", JVal.str "Zebra"),
      ("attributes", JVal.obj [("k2", JVal.str "v2")])]
    2 ⟨"A", some "T", [("k", "v")], [1]⟩ "A" rfl rfl (by decide)

/-! ## C3: export/import round trip -/

theorem truthy_str (s : String) (h : s ≠ "") : truthy (JVal.str s) = true := by
  simp [truthy, h]

theorem decodeOptStr_jsonOfOptStr (o : Option String) : decodeOptStr (jsonOfOptStr o) = o := by
  cases o <;> rfl

theorem decodeAttrs_jsonOfAttrs (l : List (String × String)) :
    decodeAttrs (jsonOfAttrs l) = l := by
  induction l with
  | nil => rfl
  | cons kv l ih =>
    show (kv.1, kv.2) :: decodeAttrs (jsonOfAttrs l) = kv :: l
    rw [ih]

theorem decodeProv_jsonOfProv (l : List Int) : decodeProv (jsonOfProv l) = l := by
  induction l with
  | nil => rfl
  | cons i l ih =>
    show i :: decodeProv (jsonOfProv l) = i :: l
    rw [ih]

theorem lookup_nodeFields_id (i t a p : JVal) :
    List.lookup "id" [("id", i), ("type", t), ("attributes", a), ("provenance", p)] = some i := rfl

theorem lookup_nodeFields_type (i t a p : JVal) :
    List.lookup "type" [("id", i), ("type", t), ("attributes", a), ("provenance", p)] = some t := rfl

theorem lookup_nodeFields_attributes (i t a p : JVal) :
    List.lookup "attributes" [("id", i), ("type", t), ("attributes", a), ("provenance", p)] =
      some a := rfl

theorem lookup_nodeFields_provenance (i t a p : JVal) :
    List.lookup "provenance" [("id", i), ("type", t), ("attributes", a), ("provenance", p)] =
      some p := rfl

theorem lookup_edgeFields_source (s t r p : JVal) :
    List.lookup "source" [("source", s), ("target", t), ("relation", r), ("provenance", p)] =
      some s := rfl

theorem lookup_edgeFields_target (s t r p : JVal) :
    List.lookup "target" [("source", s), ("target", t), ("relation", r), ("provenance", p)] =
      some t := rfl

theorem lookup_edgeFields_relation (s t r p : JVal) :
    List.lookup "relation" [("source", s), ("target", t), ("relation", r), ("provenance", p)] =
      some r := rfl

theorem lookup_edgeFields_provenance (s t r p : JVal) :
    List.lookup "provenance" [("source", s), ("target", t), ("relation", r), ("provenance", p)] =
      some p := rfl

theorem restoreOneNode_encoded (b : Builder) (n : Node) (hid : n.id ≠ "")
    (hnb : hasNode b n.id = false) :
    restoreOneNode b (jsonOfNode n) =
      ({ nodes := b.nodes ++ [n], edges := b.edges,
         nameMap := (pyLower n.id, n.id) :: b.nameMap }, none) := by
  simp only [jsonOfNode, restoreOneNode, dictGet, dictGetD, lookup_nodeFields_id,
    lookup_nodeFields_type, lookup_nodeFields_attributes, lookup_nodeFields_provenance,
    Option.getD_some, truthy_str n.id hid, if_true, decodeOptStr_jsonOfOptStr,
    decodeAttrs_jsonOfAttrs, decodeProv_jsonOfProv, addNodePy, hnb, Bool.false_eq_true,
    if_false]

theorem restoreNodes_encoded :
    ∀ (ns : List Node) (b : Builder),
      (∀ n ∈ ns, n.id ≠ "") →
      (∀ n ∈ ns, hasNode b n.id = false) →
      (ns.map (fun n => n.id)).Nodup →
      ∃ m : List (String × String),
        foldStop restoreOneNode b (ns.map jsonOfNode) =
          ({ nodes := b.nodes ++ ns, edges := b.edges, nameMap := m }, none) := by
  intro ns
  induction ns with
  | nil =>
    intro b h1 h2 h3
    refine ⟨b.nameMap, ?_⟩
    simp [foldStop]
  | cons n ns ih =>
    intro b h1 h2 h3
    have hid : n.id ≠ "" := h1 n (by simp)
    have hnb : hasNode b n.id = false := h2 n (by simp)
    have hnotin : n.id ∉ ns.map (fun n => n.id) := by
      have h4 : (n.id :: ns.map (fun n => n.id)).Nodup := by simpa using h3
      exact (List.nodup_cons.mp h4).1
    obtain ⟨m, hm⟩ := ih
      { nodes := b.nodes ++ [n], edges := b.edges, nameMap := (pyLower n.id, n.id) :: b.nameMap }
      (fun x hx => h1 x (by simp [hx]))
      (fun x hx => by
        have hx1 : hasNode b x.id = false := h2 x (by simp [hx])
        have hx2 : (n.id == x.id) = false := by
          refine beq_eq_false_iff_ne.mpr ?_
          intro hcon
          exact hnotin (hcon ▸ List.mem_map_of_mem (fun n => n.id) hx)
        simp only [hasNode] at hx1 ⊢
        simp [List.any_append, hx1, hx2])
      (by
        have h4 : (n.id :: ns.map (fun n => n.id)).Nodup := by simpa using h3
        exact (List.nodup_cons.mp h4).2)
    refine ⟨m, ?_⟩
    rw [List.map_cons]
    simp only [foldStop, restoreOneNode_encoded b n hid hnb]
    rw [hm]
    simp

theorem restoreOneEdge_encoded (b : Builder) (e : Edge) (hs : e.source ≠ "") (ht : e.target ≠ "")
    (hu : hasNode b e.source = true) (hv : hasNode b e.target = true)
    (hkey : b.edges.any (fun x => x.source == e.source && x.target == e.target) = false) :
    restoreOneEdge b (jsonOfEdge e) =
      ({ nodes := b.nodes, edges := b.edges ++ [e], nameMap := b.nameMap }, none) := by
  simp only [jsonOfEdge, restoreOneEdge, dictGet, dictGetD, lookup_edgeFields_source,
    lookup_edgeFields_target, lookup_edgeFields_relation, lookup_edgeFields_provenance,
    Option.getD_some, truthy_str e.source hs, truthy_str e.target ht, Bool.and_self, if_true,
    decodeOptStr_jsonOfOptStr, decodeProv_jsonOfProv, addEdgeRaw, hu, hv, hkey,
    Bool.false_eq_true, if_false]

theorem restoreEdges_encoded :
    ∀ (es : List Edge) (b : Builder),
      (∀ e ∈ es, e.source ≠ "" ∧ e.target ≠ "" ∧
        hasNode b e.source = true ∧ hasNode b e.target = true) →
      (∀ e ∈ es, b.edges.any (fun x => x.source == e.source && x.target == e.target) = false) →
      (es.map (fun e => (e.source, e.target))).Nodup →
      foldStop restoreOneEdge b (es.map jsonOfEdge) =
        ({ nodes := b.nodes, edges := b.edges ++ es, nameMap := b.nameMap }, none) := by
  intro es
  induction es with
  | nil =>
    intro b h1 h2 h3
    simp [foldStop]
  | cons e es ih =>
    intro b h1 h2 h3
    obtain ⟨hs, ht, hu, hv⟩ := h1 e (by simp)
    have hkey := h2 e (by simp)
    have hnotin : (e.source, e.target) ∉ es.map (fun x => (x.source, x.target)) := by
      have h4 : ((e.source, e.target) :: es.map (fun x => (x.source, x.target))).Nodup := by
        simpa using h3
      exact (List.nodup_cons.mp h4).1
    have hrec := ih { nodes := b.nodes, edges := b.edges ++ [e], nameMap := b.nameMap }
      (fun x hx => h1 x (by simp [hx]))
      (fun x hx => by
        have hx1 : b.edges.any (fun y => y.source == x.source && y.target == x.target) = false :=
          h2 x (by simp [hx])
        have hx2 : (e.source == x.source && e.target == x.target) = false := by
          cases hq : (e.source == x.source && e.target == x.target) with
          | false => rfl
          | true =>
            obtain ⟨q1, q2⟩ := Bool.and_eq_true_iff.mp hq
            have : (e.source, e.target) = (x.source, x.target) := by
              rw [eq_of_beq q1, eq_of_beq q2]
            exact absurd (this ▸ List.mem_map_of_mem (fun x => (x.source, x.target)) hx)
              hnotin
        simp [List.any_append, hx1, hx2])
      (by
        have h4 : ((e.source, e.target) :: es.map (fun x => (x.source, x.target))).Nodup := by
          simpa using h3
        exact (List.nodup_cons.mp h4).2)
    rw [List.map_cons]
    simp only [foldStop, restoreOneEdge_encoded b e hs ht hu hv hkey]
    rw [hrec]
    simp

theorem lookup_graphFields_nodes (x y : JVal) :
    List.lookup "nodes" [("nodes", x), ("edges", y)] = some x := rfl

theorem lookup_graphFields_edges (x y : JVal) :
    List.lookup "edges" [("nodes", x), ("edges", y)] = some y := rfl

theorem encode_export (b : Builder) :
    encodeGraphData (exportJson b) =
      JVal.obj [("nodes", JVal.arr (b.nodes.map jsonOfNode)),
        ("edges", JVal.arr (b.edges.map jsonOfEdge))] := by
  simp only [encodeGraphData]
  rw [exportJson_nodes, exportJson_edges]

/-- C3 counterexample: the store built by integrating an entity whose
name strips to the empty string contains a node with id `""`; its export
re-imports to an empty store (the falsy id is skipped), so
import(export(store)) does not reproduce every store's node set. -/
theorem c3_cex_roundtrip_empty_id :
    (addChunkData emptyBuilder
      ⟨[JVal.obj [("name", JVal.str ""), ("type", JVal.str "Company")]], [], []⟩ 1).1.nodes ≠ [] ∧
    (loadFromJson emptyBuilder (LoadInput.parsed (encodeGraphData (exportJson
      (addChunkData emptyBuilder
        ⟨[JVal.obj [("name", JVal.str ""), ("type", JVal.str "Company")]], [], []⟩
        1).1)))).1.nodes = [] := by
  decide

/-- C3 amended: for every store whose node ids are nonempty and pairwise
distinct and whose edges have nonempty endpoints that are present nodes
and pairwise distinct (source, target) keys, importing the serialized
export into an empty store reproduces the node list and the edge list
exactly (ids, types, attributes, provenance; sources, targets, relations,
provenance). -/
theorem c3_roundtrip_wellformed (b : Builder)
    (h1 : ∀ n ∈ b.nodes, n.id ≠ "")
    (h2 : (b.nodes.map (fun n => n.id)).Nodup)
    (h3 : ∀ e ∈ b.edges, e.source ≠ "" ∧ e.target ≠ "" ∧
      hasNode b e.source = true ∧ hasNode b e.target = true)
    (h4 : (b.edges.map (fun e => (e.source, e.target))).Nodup) :
    (loadFromJson emptyBuilder
        (LoadInput.parsed (encodeGraphData (exportJson b)))).1.nodes = b.nodes ∧
    (loadFromJson emptyBuilder
        (LoadInput.parsed (encodeGraphData (exportJson b)))).1.edges = b.edges := by
  rw [encode_export]
  obtain ⟨m, hm⟩ := restoreNodes_encoded b.nodes emptyBuilder h1 (fun n hn => rfl) h2
  have hedges := restoreEdges_encoded b.edges
    { nodes := emptyBuilder.nodes ++ b.nodes, edges := emptyBuilder.edges, nameMap := m }
    (fun e he => ⟨(h3 e he).1, (h3 e he).2.1, (h3 e he).2.2.1, (h3 e he).2.2.2⟩)
    (fun e he => rfl)
    h4
  constructor
  · simp only [loadFromJson, restoreFromJVal, dictGetD, lookup_graphFields_nodes,
      lookup_graphFields_edges, Option.getD_some, pyIter, hm, hedges]
    simp [emptyBuilder]
  · simp only [loadFromJson, restoreFromJVal, dictGetD, lookup_graphFields_nodes,
      lookup_graphFields_edges, Option.getD_some, pyIter, hm, hedges]
    simp [emptyBuilder]

/-- Witness for C3 at a concrete well-formed store. -/
theorem c3_witness :
    (loadFromJson emptyBuilder (LoadInput.parsed (encodeGraphData (exportJson
        ⟨[⟨"A", some "T", [("k", "v")], [1]⟩], [⟨"A", "A", some "offers", [1]⟩],
         [("a", "A")]⟩)))).1.nodes = [⟨"A", some "T", [("k", "v")], [1]⟩] ∧
    (loadFromJson emptyBuilder (LoadInput.parsed (encodeGraphData (exportJson
        ⟨[⟨"A", some "T", [("k", "v")], [1]⟩], [⟨"A", "A", some "offers", [1]⟩],
         [("a", "A")]⟩)))).1.edges = [⟨"A", "A", some "offers", [1]⟩] :=
  c3_roundtrip_wellformed
    ⟨[⟨"A", some "T", [("k", "v")], [1]⟩], [⟨"A", "A", some "offers", [1]⟩], [("a", "A")]⟩
    (by decide) (by decide) (by decide) (by decide)
